import Mathlib

set_option maxHeartbeats 1000000

/-!
Verification of the Flickr image downloader node
(src/knime-python-flickr/src/nodes/flickr_image_downloader.py).

The pagination loop of `FlickrImageDownloader.execute` (lines 80-138) is
embedded as a fuel-indexed recursive function over an abstract HTTP oracle
`oracle : Nat → Nat → SearchResponse` that maps the varying query parameters
(`per_page`, `page`) of one search request to the response the remote API
returns.  The constant parameters of the request (`method`, `api_key`,
`text`, `format`, `nojsoncallback`) are fixed for the whole run and are
absorbed into the oracle.  The image download helper
`FlickrImageDownloader.__open_image_from_url` (lines 149-158) and the list
comprehension that builds the output table (line 144) are embedded over a
download oracle `dl : String → HttpResponse` and an abstract decode/re-encode
function standing for the PIL round trip.
-/

/-- A raw photo metadata record of one search response item.  A JSON key that
is absent maps to `none`; Python truthiness of a present string value is
falsity exactly on `""`, and the `farm` field is compared against the integer
sentinel `0` (line 118 of the source). -/
structure Photo where
  farm : Option Nat
  server : Option String
  id : Option String
  secret : Option String
deriving DecidableEq

/-- The validation test of `execute` lines 116-125: a record is skipped when
`farm` is absent or `0`, or any of `server`, `id`, `secret` is absent or
empty. -/
def invalidPhoto (p : Photo) : Bool :=
  decide (p.farm = none) || decide (p.farm = some 0)
    || decide (p.server = none) || decide (p.server = some "")
    || decide (p.id = none) || decide (p.id = some "")
    || decide (p.secret = none) || decide (p.secret = some "")

/-- The spec's validity rule, stated in the spec's own words (section 3): all
four fields are present and non-empty/non-zero, `farm` not equal to the
sentinel `0`.  Used only to compare the spec sentence against
`invalidPhoto`. -/
def specValidRecord (p : Photo) : Prop :=
  (∃ f, p.farm = some f ∧ f ≠ 0) ∧
    (∃ s, p.server = some s ∧ s ≠ "") ∧
    (∃ i, p.id = some i ∧ i ≠ "") ∧
    (∃ t, p.secret = some t ∧ t ≠ "")

/-- The URL template of `execute` line 129.  The `getD` defaults are never
reached on the records the loop builds a URL for, since the URL is only built
after `invalidPhoto` returned `false`. -/
def photoUrl (p : Photo) : String :=
  "https://farm" ++ toString (p.farm.getD 0) ++ ".staticflickr.com/"
    ++ p.server.getD "" ++ "/" ++ p.id.getD "" ++ "_" ++ p.secret.getD ""
    ++ ".jpg"

/-- The value of the `"photos"` JSON key: it may itself lack the `"photo"`
key (checked on line 105 of the source). -/
structure PhotosField where
  photo : Option (List Photo)
deriving DecidableEq

/-- One HTTP response of the search endpoint: an HTTP status code and, for
the body, the optional `"photos"` object (`none` models a body without the
`"photos"` key). -/
structure SearchResponse where
  status : Nat
  photos : Option PhotosField
deriving DecidableEq

/-- Extraction of `data["photos"]["photo"]`: `none` when either nesting level
is missing, which is exactly the condition of line 105. -/
def respPhotos (r : SearchResponse) : Option (List Photo) :=
  match r.photos with
  | none => none
  | some f => f.photo

/-- The varying query parameters of one issued search request (lines 84-92),
together with the ghost observation `urlsLen`, the length of the `urls`
accumulator at the moment the request was issued. -/
structure SearchRequest where
  per_page : Nat
  page : Nat
  urlsLen : Nat
deriving DecidableEq

/-- The per-page limit `max_per_page` of line 75. -/
def max_per_page : Nat := 500

/-- The inner `for photo in photo_list` loop of `execute` lines 114-136:
invalid records are skipped (`continue`), the URL is appended only when not
already present, and the loop breaks as soon as the accumulator reaches
`target` entries. -/
def processPhotoList (target : Nat) : List Photo → List String → List String
  | [], urls => urls
  | p :: rest, urls =>
    if invalidPhoto p then processPhotoList target rest urls
    else
      let url := photoUrl p
      let urls' := if url ∈ urls then urls else urls ++ [url]
      if target ≤ urls'.length then urls'
      else processPhotoList target rest urls'

/-- Outcome of the pagination loop.  `apiError` is the `RuntimeError` of line
97 (non-success HTTP status), `malformedError` the `ValueError` of line 106
(missing `photos.photo` structure); both discard the URLs collected so far,
as a raised exception does.  `outOfFuel` marks a run that did not finish
within the given fuel.  Every constructor carries the trace of issued
requests. -/
inductive PagResult where
  | done (urls : List String) (reqs : List SearchRequest)
  | apiError (reqs : List SearchRequest)
  | malformedError (reqs : List SearchRequest)
  | outOfFuel (urls : List String) (reqs : List SearchRequest)
deriving DecidableEq

/-- Trace of issued requests of an outcome. -/
def PagResult.reqs : PagResult → List SearchRequest
  | .done _ rs => rs
  | .apiError rs => rs
  | .malformedError rs => rs
  | .outOfFuel _ rs => rs

/-- URLs carried by an outcome (empty for the two fatal errors, which return
nothing). -/
def PagResult.urls : PagResult → List String
  | .done us _ => us
  | .apiError _ => []
  | .malformedError _ => []
  | .outOfFuel us _ => us

/-- Whether the run exhausted its fuel before the loop finished. -/
def PagResult.timedOut : PagResult → Bool
  | .outOfFuel _ _ => true
  | _ => false

/-- The `while len(urls) < num_requested_images` loop of `execute` lines
80-138, indexed by fuel since the Python loop has no syntactic termination
guarantee.  One fuel unit is one loop iteration.  `page` starts at 1 and is
incremented after every processed page (line 138). -/
def paginateLoop (oracle : Nat → Nat → SearchResponse) (target : Nat) :
    Nat → List String → Nat → List SearchRequest → PagResult
  | 0, urls, _, reqs =>
    if urls.length < target then .outOfFuel urls reqs else .done urls reqs
  | fuel + 1, urls, page, reqs =>
    if urls.length < target then
      let per_page := min (target - urls.length) max_per_page
      let reqs' := reqs ++ [⟨per_page, page, urls.length⟩]
      let resp := oracle per_page page
      if resp.status ≠ 200 then .apiError reqs'
      else
        match respPhotos resp with
        | none => .malformedError reqs'
        | some photo_list =>
          if photo_list.isEmpty then .done urls reqs'
          else
            paginateLoop oracle target fuel
              (processPhotoList target photo_list urls) (page + 1) reqs'
    else .done urls reqs

/-- The whole pagination phase of `execute`: empty accumulator, `page = 1`. -/
def paginate (oracle : Nat → Nat → SearchResponse) (target fuel : Nat) :
    PagResult :=
  paginateLoop oracle target fuel [] 1 []

/-- The pagination loop terminates on the given oracle and target when some
finite fuel suffices for the run to finish (by reaching the target, seeing an
empty page, or raising a fatal error). -/
def Terminates (oracle : Nat → Nat → SearchResponse) (target : Nat) : Prop :=
  ∃ fuel, (paginate oracle target fuel).timedOut = false

/-- One HTTP response of an image download: a status code and the raw body
bytes. -/
structure HttpResponse where
  status : Nat
  content : List Nat
deriving DecidableEq

/-- `FlickrImageDownloader.__open_image_from_url` (lines 149-158): on status
200 the body is decoded and re-encoded to PNG (abstracted as `reencode`),
otherwise a `ValueError` naming the URL is raised (modelled as `.error
url`). -/
def openImageFromUrl (dl : String → HttpResponse)
    (reencode : List Nat → List Nat) (url : String) :
    Except String (List Nat) :=
  let response := dl url
  if response.status = 200 then .ok (reencode response.content)
  else .error url

/-- The list comprehension of line 144 building the `Image` column: images
are fetched left to right and the first failure aborts the whole run, so no
table is produced. -/
def downloadAll (dl : String → HttpResponse)
    (reencode : List Nat → List Nat) : List String →
    Except String (List (List Nat))
  | [] => .ok []
  | u :: rest =>
    match openImageFromUrl dl reencode u with
    | .error e => .error e
    | .ok img =>
      match downloadAll dl reencode rest with
      | .error e => .error e
      | .ok imgs => .ok (img :: imgs)

/-- Invariant of the pagination loop: every collected URL is the URL of some
valid record delivered by an earlier page (a page number below the current
one, requested with a per-page count within the limit). -/
def UrlsFromEarlier (oracle : Nat → Nat → SearchResponse) (page : Nat)
    (urls : List String) : Prop :=
  ∀ u ∈ urls, ∃ pp pg qs q, pp ≤ max_per_page ∧ 1 ≤ pg ∧ pg < page ∧
    respPhotos (oracle pp pg) = some qs ∧ q ∈ qs ∧ invalidPhoto q = false ∧
    u = photoUrl q

/-- The remote source supplies enough valid, pairwise-distinct records: every
request that the loop can issue is answered with a success status, a
well-formed body, exactly the requested number of records, all valid, with
pairwise distinct URLs, and with URLs distinct from those of every valid
record of every earlier page. -/
def SuppliesEnough (oracle : Nat → Nat → SearchResponse) : Prop :=
  ∀ pp pg, pp ≤ max_per_page → 1 ≤ pg → ∃ photos,
    (oracle pp pg).status = 200 ∧
    respPhotos (oracle pp pg) = some photos ∧
    photos.length = pp ∧
    (∀ p ∈ photos, invalidPhoto p = false) ∧
    (photos.map photoUrl).Nodup ∧
    (∀ pp' pg', pp' ≤ max_per_page → 1 ≤ pg' → pg' < pg →
      ∀ qs, respPhotos (oracle pp' pg') = some qs →
        ∀ q ∈ qs, invalidPhoto q = false →
          ∀ p ∈ photos, photoUrl p ≠ photoUrl q)

/-- Every page the loop can request either fails (non-success status), is
malformed, is empty, or contains at least one valid record whose URL differs
from the URL of every valid record of every earlier page.  This is the
weakest supply condition under which each loop iteration makes progress. -/
def EveryPageSettles (oracle : Nat → Nat → SearchResponse) : Prop :=
  ∀ pp pg, pp ≤ max_per_page → 1 ≤ pg →
    (oracle pp pg).status ≠ 200 ∨
    respPhotos (oracle pp pg) = none ∨
    respPhotos (oracle pp pg) = some [] ∨
    (∃ photos, respPhotos (oracle pp pg) = some photos ∧
      ∃ p ∈ photos, invalidPhoto p = false ∧
        (∀ pp' pg', pp' ≤ max_per_page → 1 ≤ pg' → pg' < pg →
          ∀ qs, respPhotos (oracle pp' pg') = some qs →
            ∀ q ∈ qs, invalidPhoto q = false → photoUrl p ≠ photoUrl q))

/-- A request trace is clean when every request in it was answered with a
success status and a well-formed body (such requests let the loop
continue). -/
def CleanTrace (oracle : Nat → Nat → SearchResponse)
    (reqs : List SearchRequest) : Prop :=
  ∀ r ∈ reqs, (oracle r.per_page r.page).status = 200 ∧
    respPhotos (oracle r.per_page r.page) ≠ none

/-- An oracle whose every answer is a success with one invalid record: the
page counter advances but the accumulator never grows, so the loop never
finishes. -/
def badOracle : Nat → Nat → SearchResponse :=
  fun _ _ => ⟨200, some ⟨some [⟨none, none, none, none⟩]⟩⟩

/-- An oracle whose every answer is a success with an empty photo list (an
exhausted remote source). -/
def emptyOracle : Nat → Nat → SearchResponse :=
  fun _ _ => ⟨200, some ⟨some []⟩⟩

/-- An oracle that always answers with HTTP status 500. -/
def statusFailOracle : Nat → Nat → SearchResponse :=
  fun _ _ => ⟨500, some ⟨some []⟩⟩

/-- An oracle that always answers with a success status but a body lacking
the `photos.photo` structure. -/
def noPhotosOracle : Nat → Nat → SearchResponse :=
  fun _ _ => ⟨200, none⟩

/-- The `k`-th record of page `pg` of the abundant oracle: valid fields, and
an `id` whose length encodes the pair `(pg, k)` so URLs of distinct records
are distinct. -/
def goodPhoto (pg k : Nat) : Photo :=
  ⟨some 1, some "s", some (String.mk (List.replicate (pg * 500 + k) 'a')),
    some "x"⟩

/-- An abundant oracle: each request for `pp` records of page `pg` is
answered with exactly `pp` valid records with globally distinct URLs. -/
def goodOracle : Nat → Nat → SearchResponse :=
  fun pp pg => ⟨200, some ⟨some ((List.range pp).map (goodPhoto pg))⟩⟩

/-- A download oracle that always succeeds with an empty body. -/
def dlOk : String → HttpResponse := fun _ => ⟨200, []⟩

/-- A download oracle that always answers 404. -/
def dlNotFound : String → HttpResponse := fun _ => ⟨404, []⟩

/-- A trivial stand-in for the PIL decode/re-encode round trip, used only to
instantiate witnesses. -/
def idBytes : List Nat → List Nat := fun b => b

/-! Helper lemmas about one page of the inner loop. -/

/-- Processing one page only appends to the accumulator: URLs already
collected stay, in order, at the front. -/
theorem processPhotoList_eq_append (target : Nat) (photos : List Photo) :
    ∀ urls, ∃ t, processPhotoList target photos urls = urls ++ t := by
  induction photos with
  | nil => intro urls; exact ⟨[], by simp [processPhotoList]⟩
  | cons p rest ih =>
    intro urls
    by_cases hp : invalidPhoto p
    · simpa [processPhotoList, hp] using ih urls
    · by_cases hmem : photoUrl p ∈ urls
      · by_cases hlen : target ≤ urls.length
        · exact ⟨[], by simp [processPhotoList, hp, hmem, hlen]⟩
        · simpa [processPhotoList, hp, hmem, hlen] using ih urls
      · by_cases hlen : target ≤ urls.length + 1
        · exact ⟨[photoUrl p], by simp [processPhotoList, hp, hmem, hlen]⟩
        · obtain ⟨t, ht⟩ := ih (urls ++ [photoUrl p])
          refine ⟨[photoUrl p] ++ t, ?_⟩
          simp [processPhotoList, hp, hmem, hlen, ht]

/-- The accumulator never shrinks while a page is processed. -/
theorem processPhotoList_length_mono (target : Nat) (photos : List Photo)
    (urls : List String) :
    urls.length ≤ (processPhotoList target photos urls).length := by
  obtain ⟨t, ht⟩ := processPhotoList_eq_append target photos urls
  simp [ht]

/-- Every URL produced by one page either was already collected or is the URL
of a valid record of that page. -/
theorem processPhotoList_mem (target : Nat) (photos : List Photo) :
    ∀ urls u, u ∈ processPhotoList target photos urls →
      u ∈ urls ∨ ∃ p, p ∈ photos ∧ invalidPhoto p = false ∧ u = photoUrl p := by
  induction photos with
  | nil => intro urls u h; exact Or.inl (by simpa [processPhotoList] using h)
  | cons p rest ih =>
    intro urls u h
    by_cases hp : invalidPhoto p
    · rcases ih urls u (by simpa [processPhotoList, hp] using h) with
        h' | ⟨q, hq, hval, hu⟩
      · exact Or.inl h'
      · exact Or.inr ⟨q, List.mem_cons_of_mem _ hq, hval, hu⟩
    · have hp' : invalidPhoto p = false := by simpa using hp
      by_cases hmem : photoUrl p ∈ urls
      · by_cases hlen : target ≤ urls.length
        · exact Or.inl (by simpa [processPhotoList, hp, hmem, hlen] using h)
        · rcases ih urls u
              (by simpa [processPhotoList, hp, hmem, hlen] using h) with
            h' | ⟨q, hq, hval, hu⟩
          · exact Or.inl h'
          · exact Or.inr ⟨q, List.mem_cons_of_mem _ hq, hval, hu⟩
      · by_cases hlen : target ≤ urls.length + 1
        · have heq : processPhotoList target (p :: rest) urls
              = urls ++ [photoUrl p] := by
            simp [processPhotoList, hp, hmem, hlen]
          rw [heq] at h
          rcases List.mem_append.mp h with h'' | h''
          · exact Or.inl h''
          · exact Or.inr ⟨p, List.mem_cons_self _ _, hp', by simpa using h''⟩
        · have heq : processPhotoList target (p :: rest) urls
              = processPhotoList target rest (urls ++ [photoUrl p]) := by
            simp [processPhotoList, hp, hmem, hlen]
          rw [heq] at h
          rcases ih (urls ++ [photoUrl p]) u h with h' | ⟨q, hq, hval, hu⟩
          · rcases List.mem_append.mp h' with h'' | h''
            · exact Or.inl h''
            · exact Or.inr ⟨p, List.mem_cons_self _ _, hp',
                by simpa using h''⟩
          · exact Or.inr ⟨q, List.mem_cons_of_mem _ hq, hval, hu⟩

/-- Processing a page preserves the no-duplicates invariant of the
accumulator: the membership test of line 132 only appends fresh URLs. -/
theorem processPhotoList_nodup (target : Nat) (photos : List Photo) :
    ∀ urls, urls.Nodup → (processPhotoList target photos urls).Nodup := by
  induction photos with
  | nil => intro urls h; simpa [processPhotoList] using h
  | cons p rest ih =>
    intro urls h
    by_cases hp : invalidPhoto p
    · simpa [processPhotoList, hp] using ih urls h
    · by_cases hmem : photoUrl p ∈ urls
      · by_cases hlen : target ≤ urls.length
        · simpa [processPhotoList, hp, hmem, hlen] using h
        · simpa [processPhotoList, hp, hmem, hlen] using ih urls h
      · have hnd2 : (urls ++ [photoUrl p]).Nodup := by
          simp [List.nodup_append, h, List.disjoint_singleton, hmem]
        by_cases hlen : target ≤ urls.length + 1
        · have heq : processPhotoList target (p :: rest) urls
              = urls ++ [photoUrl p] := by
            simp [processPhotoList, hp, hmem, hlen]
          rw [heq]; exact hnd2
        · have heq : processPhotoList target (p :: rest) urls
              = processPhotoList target rest (urls ++ [photoUrl p]) := by
            simp [processPhotoList, hp, hmem, hlen]
          rw [heq]; exact ih (urls ++ [photoUrl p]) hnd2

/-- Entering a page with fewer than `target` URLs, the accumulator never
exceeds `target`: the break of line 136 fires as soon as it is reached. -/
theorem processPhotoList_length_le (target : Nat) (photos : List Photo) :
    ∀ urls, urls.length < target →
      (processPhotoList target photos urls).length ≤ target := by
  induction photos with
  | nil => intro urls h; simp [processPhotoList]; omega
  | cons p rest ih =>
    intro urls h
    by_cases hp : invalidPhoto p
    · simpa [processPhotoList, hp] using ih urls h
    · by_cases hmem : photoUrl p ∈ urls
      · by_cases hlen : target ≤ urls.length
        · omega
        · simpa [processPhotoList, hp, hmem, hlen] using ih urls h
      · by_cases hlen : target ≤ urls.length + 1
        · have heq : processPhotoList target (p :: rest) urls
              = urls ++ [photoUrl p] := by
            simp [processPhotoList, hp, hmem, hlen]
          rw [heq]; simp; omega
        · have h' : (urls ++ [photoUrl p]).length < target := by simp; omega
          have heq : processPhotoList target (p :: rest) urls
              = processPhotoList target rest (urls ++ [photoUrl p]) := by
            simp [processPhotoList, hp, hmem, hlen]
          rw [heq]; exact ih (urls ++ [photoUrl p]) h'

/-- A page containing a valid record whose URL is fresh strictly grows the
accumulator (provided the target was not yet reached). -/
theorem processPhotoList_length_lt (target : Nat) (photos : List Photo) :
    ∀ urls p, p ∈ photos → invalidPhoto p = false → photoUrl p ∉ urls →
      urls.length < target →
      urls.length < (processPhotoList target photos urls).length := by
  induction photos with
  | nil => intro _ _ hmem; exact absurd hmem (List.not_mem_nil _)
  | cons q rest ih =>
    intro urls p hmem hval hfresh hlt
    by_cases hq : invalidPhoto q
    · have hp : p ∈ rest := by
        rcases List.mem_cons.mp hmem with rfl | h'
        · rw [hval] at hq; exact absurd hq (by simp)
        · exact h'
      simpa [processPhotoList, hq] using ih urls p hp hval hfresh hlt
    · by_cases hqmem : photoUrl q ∈ urls
      · have hlen : ¬ target ≤ urls.length := by omega
        have hp : p ∈ rest := by
          rcases List.mem_cons.mp hmem with rfl | h'
          · exact absurd hqmem hfresh
          · exact h'
        simpa [processPhotoList, hq, hqmem, hlen] using
          ih urls p hp hval hfresh hlt
      · by_cases hlen : target ≤ urls.length + 1
        · have heq : processPhotoList target (q :: rest) urls
              = urls ++ [photoUrl q] := by
            simp [processPhotoList, hq, hqmem, hlen]
          rw [heq]; simp
        · have hmono := processPhotoList_length_mono target rest
            (urls ++ [photoUrl q])
          have heq : processPhotoList target (q :: rest) urls
              = processPhotoList target rest (urls ++ [photoUrl q]) := by
            simp [processPhotoList, hq, hqmem, hlen]
          rw [heq]; simp at hmono; omega

/-- When a page consists of valid records with pairwise distinct URLs, all
fresh with respect to the accumulator, and the page fits under the target,
each record appends exactly its URL, in page order. -/
theorem processPhotoList_all_new (target : Nat) (photos : List Photo) :
    ∀ urls, (∀ p ∈ photos, invalidPhoto p = false) →
      (photos.map photoUrl).Nodup →
      (∀ p ∈ photos, photoUrl p ∉ urls) →
      urls.length + photos.length ≤ target →
      processPhotoList target photos urls = urls ++ photos.map photoUrl := by
  induction photos with
  | nil => intro urls _ _ _ _; simp [processPhotoList]
  | cons p rest ih =>
    intro urls hval hnd hfresh hcount
    have hp : invalidPhoto p = false := hval p (List.mem_cons_self _ _)
    have hpmem : photoUrl p ∉ urls := hfresh p (List.mem_cons_self _ _)
    by_cases hlen : target ≤ urls.length + 1
    · have hrest : rest = [] := by
        refine List.length_eq_zero.mp ?_
        simp at hcount; omega
      subst hrest
      have heq : processPhotoList target [p] urls = urls ++ [photoUrl p] := by
        simp [processPhotoList, hp, hpmem, hlen]
      rw [heq]; simp
    · have hnd' : (rest.map photoUrl).Nodup := by
        simp only [List.map_cons, List.nodup_cons] at hnd
        exact hnd.2
    -- the head URL differs from every URL of the rest of the page
      have hne : ∀ q ∈ rest, photoUrl q ≠ photoUrl p := by
        intro q hq heq
        simp only [List.map_cons, List.nodup_cons] at hnd
        exact hnd.1 (heq ▸ List.mem_map_of_mem photoUrl hq)
      have hfresh' : ∀ q ∈ rest, photoUrl q ∉ urls ++ [photoUrl p] := by
        intro q hq
        simp only [List.mem_append, List.mem_singleton]
        push_neg
        exact ⟨hfresh q (List.mem_cons_of_mem _ hq), hne q hq⟩
      have hcount' : (urls ++ [photoUrl p]).length + rest.length ≤ target := by
        simp at hcount ⊢; omega
      have hrec := ih (urls ++ [photoUrl p]) (fun q hq => hval q
        (List.mem_cons_of_mem _ hq)) hnd' hfresh' hcount'
      have heq : processPhotoList target (p :: rest) urls
          = processPhotoList target rest (urls ++ [photoUrl p]) := by
        simp [processPhotoList, hp, hpmem, hlen]
      rw [heq, hrec]; simp

/-! Rewrite lemmas, one per branch of the pagination loop. -/

/-- Target already reached: the loop body is skipped. -/
theorem paginateLoop_done_of_not_lt (oracle : Nat → Nat → SearchResponse)
    (target fuel : Nat) (urls : List String) (page : Nat)
    (reqs : List SearchRequest) (h : ¬ urls.length < target) :
    paginateLoop oracle target fuel urls page reqs = .done urls reqs := by
  cases fuel <;> simp [paginateLoop, h]

/-- Fuel exhausted with the guard still true. -/
theorem paginateLoop_zero (oracle : Nat → Nat → SearchResponse)
    (target : Nat) (urls : List String) (page : Nat)
    (reqs : List SearchRequest) (h : urls.length < target) :
    paginateLoop oracle target 0 urls page reqs = .outOfFuel urls reqs := by
  simp [paginateLoop, h]

/-- Non-success HTTP status: the `RuntimeError` of line 97. -/
theorem paginateLoop_apiError (oracle : Nat → Nat → SearchResponse)
    (target fuel : Nat) (urls : List String) (page : Nat)
    (reqs : List SearchRequest) (h : urls.length < target)
    (hs : (oracle (min (target - urls.length) max_per_page) page).status ≠ 200) :
    paginateLoop oracle target (fuel + 1) urls page reqs =
      .apiError (reqs ++
        [⟨min (target - urls.length) max_per_page, page, urls.length⟩]) := by
  simp [paginateLoop, h, hs]

/-- Success status but missing `photos.photo` structure: the `ValueError` of
line 106. -/
theorem paginateLoop_malformed (oracle : Nat → Nat → SearchResponse)
    (target fuel : Nat) (urls : List String) (page : Nat)
    (reqs : List SearchRequest) (h : urls.length < target)
    (hs : (oracle (min (target - urls.length) max_per_page) page).status = 200)
    (hr : respPhotos (oracle (min (target - urls.length) max_per_page) page)
      = none) :
    paginateLoop oracle target (fuel + 1) urls page reqs =
      .malformedError (reqs ++
        [⟨min (target - urls.length) max_per_page, page, urls.length⟩]) := by
  simp [paginateLoop, h, hs, hr]

/-- Empty photo list: the early break of line 112. -/
theorem paginateLoop_emptyPage (oracle : Nat → Nat → SearchResponse)
    (target fuel : Nat) (urls : List String) (page : Nat)
    (reqs : List SearchRequest) (h : urls.length < target)
    (hs : (oracle (min (target - urls.length) max_per_page) page).status = 200)
    (hr : respPhotos (oracle (min (target - urls.length) max_per_page) page)
      = some []) :
    paginateLoop oracle target (fuel + 1) urls page reqs =
      .done urls (reqs ++
        [⟨min (target - urls.length) max_per_page, page, urls.length⟩]) := by
  simp [paginateLoop, h, hs, hr]

/-- Non-empty page: process it and continue with the next page number. -/
theorem paginateLoop_step (oracle : Nat → Nat → SearchResponse)
    (target fuel : Nat) (urls : List String) (page : Nat)
    (reqs : List SearchRequest) (photo_list : List Photo)
    (h : urls.length < target)
    (hs : (oracle (min (target - urls.length) max_per_page) page).status = 200)
    (hr : respPhotos (oracle (min (target - urls.length) max_per_page) page)
      = some photo_list)
    (hne : photo_list ≠ []) :
    paginateLoop oracle target (fuel + 1) urls page reqs =
      paginateLoop oracle target fuel (processPhotoList target photo_list urls)
        (page + 1) (reqs ++
          [⟨min (target - urls.length) max_per_page, page, urls.length⟩]) := by
  simp [paginateLoop, h, hs, hr, hne]

/-! Induction lemmas over the pagination loop. -/

/-- Any property holding of every request a guarded iteration can issue, and
of every request already in the trace, holds of every request in the final
trace. -/
theorem paginateLoop_reqs_pred (oracle : Nat → Nat → SearchResponse)
    (target : Nat) (P : SearchRequest → Prop)
    (hP : ∀ n page, n < target → P ⟨min (target - n) max_per_page, page, n⟩) :
    ∀ fuel urls page reqs, (∀ r ∈ reqs, P r) →
      ∀ r ∈ (paginateLoop oracle target fuel urls page reqs).reqs, P r := by
  intro fuel
  induction fuel with
  | zero =>
    intro urls page reqs h r hr
    by_cases hg : urls.length < target
    · rw [paginateLoop_zero _ _ _ _ _ hg] at hr
      simp only [PagResult.reqs] at hr
      exact h r hr
    · rw [paginateLoop_done_of_not_lt _ _ _ _ _ _ hg] at hr
      simp only [PagResult.reqs] at hr
      exact h r hr
  | succ fuel ih =>
    intro urls page reqs h r hr
    by_cases hg : urls.length < target
    · have hnew : ∀ r' ∈ reqs ++
          [⟨min (target - urls.length) max_per_page, page, urls.length⟩],
          P r' := by
        intro r' hr'
        rcases List.mem_append.mp hr' with h' | h'
        · exact h r' h'
        · rw [List.mem_singleton.mp h']
          exact hP urls.length page hg
      by_cases hs :
          (oracle (min (target - urls.length) max_per_page) page).status = 200
      · rcases hresp : respPhotos
            (oracle (min (target - urls.length) max_per_page) page) with
          _ | photo_list
        · rw [paginateLoop_malformed _ _ _ _ _ _ hg hs hresp] at hr
          simp only [PagResult.reqs] at hr
          exact hnew r hr
        · rcases Decidable.em (photo_list = []) with rfl | hne
          · rw [paginateLoop_emptyPage _ _ _ _ _ _ hg hs hresp] at hr
            simp only [PagResult.reqs] at hr
            exact hnew r hr
          · rw [paginateLoop_step _ _ _ _ _ _ _ hg hs hresp hne] at hr
            exact ih _ _ _ hnew r hr
      · rw [paginateLoop_apiError _ _ _ _ _ _ hg hs] at hr
        simp only [PagResult.reqs] at hr
        exact hnew r hr
    · rw [paginateLoop_done_of_not_lt _ _ _ _ _ _ hg] at hr
      simp only [PagResult.reqs] at hr
      exact h r hr

/-- Starting at or below the target, the accumulator carried by the outcome
stays at or below the target. -/
theorem paginateLoop_urls_length_le (oracle : Nat → Nat → SearchResponse)
    (target : Nat) :
    ∀ fuel urls page reqs, urls.length ≤ target →
      ((paginateLoop oracle target fuel urls page reqs).urls).length
        ≤ target := by
  intro fuel
  induction fuel with
  | zero =>
    intro urls page reqs h
    by_cases hg : urls.length < target
    · rw [paginateLoop_zero _ _ _ _ _ hg]
      simpa [PagResult.urls] using h
    · rw [paginateLoop_done_of_not_lt _ _ _ _ _ _ hg]
      simpa [PagResult.urls] using h
  | succ fuel ih =>
    intro urls page reqs h
    by_cases hg : urls.length < target
    · by_cases hs :
          (oracle (min (target - urls.length) max_per_page) page).status = 200
      · rcases hresp : respPhotos
            (oracle (min (target - urls.length) max_per_page) page) with
          _ | photo_list
        · rw [paginateLoop_malformed _ _ _ _ _ _ hg hs hresp]
          simp [PagResult.urls]
        · rcases Decidable.em (photo_list = []) with rfl | hne
          · rw [paginateLoop_emptyPage _ _ _ _ _ _ hg hs hresp]
            simpa [PagResult.urls] using h
          · rw [paginateLoop_step _ _ _ _ _ _ _ hg hs hresp hne]
            exact ih _ _ _ (processPhotoList_length_le target photo_list urls hg)
      · rw [paginateLoop_apiError _ _ _ _ _ _ hg hs]
        simp [PagResult.urls]
    · rw [paginateLoop_done_of_not_lt _ _ _ _ _ _ hg]
      simpa [PagResult.urls] using h

/-- Starting from a duplicate-free accumulator, the accumulator carried by
the outcome is duplicate-free. -/
theorem paginateLoop_urls_nodup (oracle : Nat → Nat → SearchResponse)
    (target : Nat) :
    ∀ fuel urls page reqs, urls.Nodup →
      ((paginateLoop oracle target fuel urls page reqs).urls).Nodup := by
  intro fuel
  induction fuel with
  | zero =>
    intro urls page reqs h
    by_cases hg : urls.length < target
    · rw [paginateLoop_zero _ _ _ _ _ hg]
      simpa [PagResult.urls] using h
    · rw [paginateLoop_done_of_not_lt _ _ _ _ _ _ hg]
      simpa [PagResult.urls] using h
  | succ fuel ih =>
    intro urls page reqs h
    by_cases hg : urls.length < target
    · by_cases hs :
          (oracle (min (target - urls.length) max_per_page) page).status = 200
      · rcases hresp : respPhotos
            (oracle (min (target - urls.length) max_per_page) page) with
          _ | photo_list
        · rw [paginateLoop_malformed _ _ _ _ _ _ hg hs hresp]
          simp [PagResult.urls]
        · rcases Decidable.em (photo_list = []) with rfl | hne
          · rw [paginateLoop_emptyPage _ _ _ _ _ _ hg hs hresp]
            simpa [PagResult.urls] using h
          · rw [paginateLoop_step _ _ _ _ _ _ _ hg hs hresp hne]
            exact ih _ _ _ (processPhotoList_nodup target photo_list urls h)
      · rw [paginateLoop_apiError _ _ _ _ _ _ hg hs]
        simp [PagResult.urls]
    · rw [paginateLoop_done_of_not_lt _ _ _ _ _ _ hg]
      simpa [PagResult.urls] using h

/-- A successful outcome only extends the starting accumulator: earlier URLs
keep their positions. -/
theorem paginateLoop_done_extends (oracle : Nat → Nat → SearchResponse)
    (target : Nat) :
    ∀ fuel urls page reqs us rs,
      paginateLoop oracle target fuel urls page reqs = .done us rs →
      ∃ t, us = urls ++ t := by
  intro fuel
  induction fuel with
  | zero =>
    intro urls page reqs us rs h
    by_cases hg : urls.length < target
    · rw [paginateLoop_zero _ _ _ _ _ hg] at h
      exact PagResult.noConfusion h
    · rw [paginateLoop_done_of_not_lt _ _ _ _ _ _ hg] at h
      injection h with h1 h2
      exact ⟨[], by simp [h1]⟩
  | succ fuel ih =>
    intro urls page reqs us rs h
    by_cases hg : urls.length < target
    · by_cases hs :
          (oracle (min (target - urls.length) max_per_page) page).status = 200
      · rcases hresp : respPhotos
            (oracle (min (target - urls.length) max_per_page) page) with
          _ | photo_list
        · rw [paginateLoop_malformed _ _ _ _ _ _ hg hs hresp] at h
          exact PagResult.noConfusion h
        · rcases Decidable.em (photo_list = []) with rfl | hne
          · rw [paginateLoop_emptyPage _ _ _ _ _ _ hg hs hresp] at h
            injection h with h1 h2
            exact ⟨[], by simp [h1]⟩
          · rw [paginateLoop_step _ _ _ _ _ _ _ hg hs hresp hne] at h
            obtain ⟨t, ht⟩ := ih _ _ _ _ _ h
            obtain ⟨t2, ht2⟩ :=
              processPhotoList_eq_append target photo_list urls
            exact ⟨t2 ++ t, by simp [ht, ht2]⟩
      · rw [paginateLoop_apiError _ _ _ _ _ _ hg hs] at h
        exact PagResult.noConfusion h
    · rw [paginateLoop_done_of_not_lt _ _ _ _ _ _ hg] at h
      injection h with h1 h2
      exact ⟨[], by simp [h1]⟩

/-- Starting from a clean trace, the loop raises the `RuntimeError` of line
97 exactly when some issued request was answered with a non-success
status. -/
theorem paginateLoop_apiError_iff (oracle : Nat → Nat → SearchResponse)
    (target : Nat) :
    ∀ fuel urls page reqs, CleanTrace oracle reqs →
      ((∃ rs, paginateLoop oracle target fuel urls page reqs = .apiError rs) ↔
        ∃ r ∈ (paginateLoop oracle target fuel urls page reqs).reqs,
          (oracle r.per_page r.page).status ≠ 200) := by
  intro fuel
  induction fuel with
  | zero =>
    intro urls page reqs hclean
    constructor
    · rintro ⟨rs, h⟩
      by_cases hg : urls.length < target
      · rw [paginateLoop_zero _ _ _ _ _ hg] at h
        exact PagResult.noConfusion h
      · rw [paginateLoop_done_of_not_lt _ _ _ _ _ _ hg] at h
        exact PagResult.noConfusion h
    · rintro ⟨r, hr, hbad⟩
      by_cases hg : urls.length < target
      · rw [paginateLoop_zero _ _ _ _ _ hg] at hr
        simp only [PagResult.reqs] at hr
        exact absurd (hclean r hr).1 hbad
      · rw [paginateLoop_done_of_not_lt _ _ _ _ _ _ hg] at hr
        simp only [PagResult.reqs] at hr
        exact absurd (hclean r hr).1 hbad
  | succ fuel ih =>
    intro urls page reqs hclean
    by_cases hg : urls.length < target
    · by_cases hs :
          (oracle (min (target - urls.length) max_per_page) page).status = 200
      · rcases hresp : respPhotos
            (oracle (min (target - urls.length) max_per_page) page) with
          _ | photo_list
        · rw [paginateLoop_malformed _ _ _ _ _ _ hg hs hresp]
          constructor
          · rintro ⟨rs, h⟩
            exact PagResult.noConfusion h
          · rintro ⟨r, hr, hbad⟩
            simp only [PagResult.reqs] at hr
            rcases List.mem_append.mp hr with h' | h'
            · exact absurd (hclean r h').1 hbad
            · rw [List.mem_singleton.mp h'] at hbad
              exact absurd hs hbad
        · rcases Decidable.em (photo_list = []) with rfl | hne
          · rw [paginateLoop_emptyPage _ _ _ _ _ _ hg hs hresp]
            constructor
            · rintro ⟨rs, h⟩
              exact PagResult.noConfusion h
            · rintro ⟨r, hr, hbad⟩
              simp only [PagResult.reqs] at hr
              rcases List.mem_append.mp hr with h' | h'
              · exact absurd (hclean r h').1 hbad
              · rw [List.mem_singleton.mp h'] at hbad
                exact absurd hs hbad
          · rw [paginateLoop_step _ _ _ _ _ _ _ hg hs hresp hne]
            refine ih _ _ _ ?_
            intro r hr
            rcases List.mem_append.mp hr with h' | h'
            · exact hclean r h'
            · rw [List.mem_singleton.mp h']
              exact ⟨hs, by simp [hresp]⟩
      · rw [paginateLoop_apiError _ _ _ _ _ _ hg hs]
        constructor
        · rintro ⟨rs, h⟩
          exact ⟨⟨min (target - urls.length) max_per_page, page, urls.length⟩,
            by simp [PagResult.reqs], hs⟩
        · intro _
          exact ⟨_, rfl⟩
    · rw [paginateLoop_done_of_not_lt _ _ _ _ _ _ hg]
      constructor
      · rintro ⟨rs, h⟩
        exact PagResult.noConfusion h
      · rintro ⟨r, hr, hbad⟩
        simp only [PagResult.reqs] at hr
        exact absurd (hclean r hr).1 hbad

/-- Starting from a clean trace, the loop raises the `ValueError` of line 106
exactly when some issued request was answered with a success status but a
body lacking the `photos.photo` structure. -/
theorem paginateLoop_malformed_iff (oracle : Nat → Nat → SearchResponse)
    (target : Nat) :
    ∀ fuel urls page reqs, CleanTrace oracle reqs →
      ((∃ rs, paginateLoop oracle target fuel urls page reqs
          = .malformedError rs) ↔
        ∃ r ∈ (paginateLoop oracle target fuel urls page reqs).reqs,
          (oracle r.per_page r.page).status = 200 ∧
            respPhotos (oracle r.per_page r.page) = none) := by
  intro fuel
  induction fuel with
  | zero =>
    intro urls page reqs hclean
    constructor
    · rintro ⟨rs, h⟩
      by_cases hg : urls.length < target
      · rw [paginateLoop_zero _ _ _ _ _ hg] at h
        exact PagResult.noConfusion h
      · rw [paginateLoop_done_of_not_lt _ _ _ _ _ _ hg] at h
        exact PagResult.noConfusion h
    · rintro ⟨r, hr, _, hnone⟩
      by_cases hg : urls.length < target
      · rw [paginateLoop_zero _ _ _ _ _ hg] at hr
        simp only [PagResult.reqs] at hr
        exact absurd hnone (hclean r hr).2
      · rw [paginateLoop_done_of_not_lt _ _ _ _ _ _ hg] at hr
        simp only [PagResult.reqs] at hr
        exact absurd hnone (hclean r hr).2
  | succ fuel ih =>
    intro urls page reqs hclean
    by_cases hg : urls.length < target
    · by_cases hs :
          (oracle (min (target - urls.length) max_per_page) page).status = 200
      · rcases hresp : respPhotos
            (oracle (min (target - urls.length) max_per_page) page) with
          _ | photo_list
        · rw [paginateLoop_malformed _ _ _ _ _ _ hg hs hresp]
          constructor
          · rintro ⟨rs, h⟩
            exact ⟨⟨min (target - urls.length) max_per_page, page,
              urls.length⟩, by simp [PagResult.reqs], hs, hresp⟩
          · intro _
            exact ⟨_, rfl⟩
        · rcases Decidable.em (photo_list = []) with rfl | hne
          · rw [paginateLoop_emptyPage _ _ _ _ _ _ hg hs hresp]
            constructor
            · rintro ⟨rs, h⟩
              exact PagResult.noConfusion h
            · rintro ⟨r, hr, _, hnone⟩
              simp only [PagResult.reqs] at hr
              rcases List.mem_append.mp hr with h' | h'
              · exact absurd hnone (hclean r h').2
              · rw [List.mem_singleton.mp h'] at hnone
                rw [hresp] at hnone
                exact Option.noConfusion hnone
          · rw [paginateLoop_step _ _ _ _ _ _ _ hg hs hresp hne]
            refine ih _ _ _ ?_
            intro r hr
            rcases List.mem_append.mp hr with h' | h'
            · exact hclean r h'
            · rw [List.mem_singleton.mp h']
              exact ⟨hs, by simp [hresp]⟩
      · rw [paginateLoop_apiError _ _ _ _ _ _ hg hs]
        constructor
        · rintro ⟨rs, h⟩
          exact PagResult.noConfusion h
        · rintro ⟨r, hr, h200, hnone⟩
          simp only [PagResult.reqs] at hr
          rcases List.mem_append.mp hr with h' | h'
          · exact absurd hnone (hclean r h').2
          · rw [List.mem_singleton.mp h'] at h200
            exact absurd h200 hs
    · rw [paginateLoop_done_of_not_lt _ _ _ _ _ _ hg]
      constructor
      · rintro ⟨rs, h⟩
        exact PagResult.noConfusion h
      · rintro ⟨r, hr, _, hnone⟩
        simp only [PagResult.reqs] at hr
        exact absurd hnone (hclean r hr).2

/-- Under an abundant supply, the loop finishes with exactly `target` URLs
whenever the fuel covers the remaining deficit (each iteration collects at
least one URL). -/
theorem paginateLoop_supplies (oracle : Nat → Nat → SearchResponse)
    (target : Nat) (hS : SuppliesEnough oracle) :
    ∀ fuel urls page reqs, 1 ≤ page → UrlsFromEarlier oracle page urls →
      urls.length ≤ target → target - urls.length ≤ fuel →
      ∃ us rs, paginateLoop oracle target fuel urls page reqs = .done us rs ∧
        us.length = target := by
  intro fuel
  induction fuel with
  | zero =>
    intro urls page reqs hpage hinv hle hfuel
    have hg : ¬ urls.length < target := by omega
    exact ⟨urls, reqs, paginateLoop_done_of_not_lt _ _ _ _ _ _ hg, by omega⟩
  | succ fuel ih =>
    intro urls page reqs hpage hinv hle hfuel
    by_cases hg : urls.length < target
    · have hpp : min (target - urls.length) max_per_page ≤ max_per_page :=
        min_le_right _ _
      obtain ⟨photos, hs, hresp, hlen, hval, hnd, hcross⟩ :=
        hS (min (target - urls.length) max_per_page) page hpp hpage
      have hppge : 1 ≤ min (target - urls.length) max_per_page := by
        refine le_min ?_ ?_
        · omega
        · norm_num [max_per_page]
      have hne : photos ≠ [] := by
        intro h0
        rw [h0] at hlen
        simp at hlen
        omega
      have hfresh : ∀ p ∈ photos, photoUrl p ∉ urls := by
        intro p hp hmem
        obtain ⟨pp', pg', qs, q, h1, h2, h3, h4, h5, h6, h7⟩ := hinv _ hmem
        exact hcross pp' pg' h1 h2 h3 qs h4 q h5 h6 p hp h7
      have hmle : photos.length ≤ target - urls.length := by
        rw [hlen]; exact min_le_left _ _
      have hcount : urls.length + photos.length ≤ target := by omega
      have hproc :=
        processPhotoList_all_new target photos urls hval hnd hfresh hcount
      have hlen2 : (processPhotoList target photos urls).length
          = urls.length + photos.length := by
        rw [hproc]; simp
      have hinv2 : UrlsFromEarlier oracle (page + 1)
          (processPhotoList target photos urls) := by
        intro u hu
        rcases processPhotoList_mem target photos urls u hu with
          h' | ⟨p, hp, hpval, hu'⟩
        · obtain ⟨pp', pg', qs, q, h1, h2, h3, h4, h5, h6, h7⟩ := hinv u h'
          exact ⟨pp', pg', qs, q, h1, h2, by omega, h4, h5, h6, h7⟩
        · exact ⟨min (target - urls.length) max_per_page, page, photos, p,
            hpp, hpage, by omega, hresp, hp, hpval, hu'⟩
      have hplen : 1 ≤ photos.length := by rw [hlen]; exact hppge
      rw [paginateLoop_step _ _ _ _ _ _ _ hg hs hresp hne]
      exact ih _ (page + 1) _ (by omega) hinv2 (by omega) (by omega)
    · exact ⟨urls, reqs, paginateLoop_done_of_not_lt _ _ _ _ _ _ hg, by omega⟩

/-- As long as every reachable page fails, is malformed, is empty, or
contributes a fresh valid URL, the loop cannot time out once the fuel covers
the remaining deficit. -/
theorem paginateLoop_settles (oracle : Nat → Nat → SearchResponse)
    (target : Nat) (hS : EveryPageSettles oracle) :
    ∀ fuel urls page reqs, 1 ≤ page → UrlsFromEarlier oracle page urls →
      target - urls.length ≤ fuel →
      (paginateLoop oracle target fuel urls page reqs).timedOut = false := by
  intro fuel
  induction fuel with
  | zero =>
    intro urls page reqs hpage hinv hfuel
    have hg : ¬ urls.length < target := by omega
    rw [paginateLoop_done_of_not_lt _ _ _ _ _ _ hg]
    simp [PagResult.timedOut]
  | succ fuel ih =>
    intro urls page reqs hpage hinv hfuel
    by_cases hg : urls.length < target
    · by_cases hs :
          (oracle (min (target - urls.length) max_per_page) page).status = 200
      · rcases hS (min (target - urls.length) max_per_page) page
            (min_le_right _ _) hpage with
          hbad | hnone | hempty | ⟨photos, hresp, p, hp, hpval, hfreshcond⟩
        · exact absurd hs hbad
        · rw [paginateLoop_malformed _ _ _ _ _ _ hg hs hnone]
          simp [PagResult.timedOut]
        · rw [paginateLoop_emptyPage _ _ _ _ _ _ hg hs hempty]
          simp [PagResult.timedOut]
        · have hne : photos ≠ [] := by
            rintro rfl
            exact absurd hp (List.not_mem_nil p)
          have hfresh : photoUrl p ∉ urls := by
            intro hmem
            obtain ⟨pp', pg', qs, q, h1, h2, h3, h4, h5, h6, h7⟩ := hinv _ hmem
            exact hfreshcond pp' pg' h1 h2 h3 qs h4 q h5 h6 h7
          have hgrow :=
            processPhotoList_length_lt target photos urls p hp hpval hfresh hg
          have hinv2 : UrlsFromEarlier oracle (page + 1)
              (processPhotoList target photos urls) := by
            intro u hu
            rcases processPhotoList_mem target photos urls u hu with
              h' | ⟨q, hq, hqval, hu'⟩
            · obtain ⟨pp', pg', qs, q, h1, h2, h3, h4, h5, h6, h7⟩ := hinv u h'
              exact ⟨pp', pg', qs, q, h1, h2, by omega, h4, h5, h6, h7⟩
            · exact ⟨min (target - urls.length) max_per_page, page, photos, q,
                min_le_right _ _, hpage, by omega, hresp, hq, hqval, hu'⟩
          rw [paginateLoop_step _ _ _ _ _ _ _ hg hs hresp hne]
          exact ih _ (page + 1) _ (by omega) hinv2 (by omega)
      · rw [paginateLoop_apiError _ _ _ _ _ _ hg hs]
        simp [PagResult.timedOut]
    · rw [paginateLoop_done_of_not_lt _ _ _ _ _ _ hg]
      simp [PagResult.timedOut]

/-- On the all-invalid oracle with target 1, no amount of fuel finishes the
loop: every page is non-empty, every record is skipped, the accumulator
stays empty and the guard stays true. -/
theorem badOracle_stuck : ∀ fuel page reqs,
    (paginateLoop badOracle 1 fuel [] page reqs).timedOut = true := by
  intro fuel
  induction fuel with
  | zero =>
    intro page reqs
    rw [paginateLoop_zero _ _ _ _ _ (by simp)]
    simp [PagResult.timedOut]
  | succ fuel ih =>
    intro page reqs
    have hg : ([] : List String).length < 1 := by simp
    have hs : (badOracle
        (min (1 - ([] : List String).length) max_per_page) page).status
        = 200 := rfl
    have hresp : respPhotos (badOracle
        (min (1 - ([] : List String).length) max_per_page) page)
        = some [⟨none, none, none, none⟩] := rfl
    rw [paginateLoop_step _ _ _ _ _ _ _ hg hs hresp (by simp)]
    have hpl : processPhotoList 1 [⟨none, none, none, none⟩] [] = [] := by
      decide
    rw [hpl]
    exact ih _ _

/-- Every record of the abundant oracle passes the validation of lines
116-125 (its `id` is non-empty because the page number is at least 1). -/
theorem goodPhoto_valid (pg k : Nat) (hpg : 1 ≤ pg) :
    invalidPhoto (goodPhoto pg k) = false := by
  have hid : String.mk (List.replicate (pg * 500 + k) 'a') ≠ "" := by
    intro h
    have hl := congrArg String.length h
    rw [String.length_mk, List.length_replicate, String.length_empty] at hl
    omega
  simp [invalidPhoto, goodPhoto, hid]

/-- The length of a record URL of the abundant oracle encodes the record's
global index. -/
theorem goodPhoto_url_length (pg k : Nat) :
    (photoUrl (goodPhoto pg k)).length = 39 + (pg * 500 + k) := by
  have h1 : "https://farm".length = 12 := rfl
  have h2 : (toString (1 : Nat)).length = 1 := rfl
  have h3 : ".staticflickr.com/".length = 18 := rfl
  have h4 : "s".length = 1 := rfl
  have h5 : "/".length = 1 := rfl
  have h6 : "_".length = 1 := rfl
  have h7 : "x".length = 1 := rfl
  have h8 : ".jpg".length = 4 := rfl
  simp [photoUrl, goodPhoto, String.length_append, String.length_mk,
    List.length_replicate, h1, h2, h3, h4, h5, h6, h7, h8]
  omega

/-- Equal URLs of abundant-oracle records force equal global indices. -/
theorem goodPhoto_url_inj (pg k pg' k' : Nat)
    (h : photoUrl (goodPhoto pg k) = photoUrl (goodPhoto pg' k')) :
    pg * 500 + k = pg' * 500 + k' := by
  have hl := congrArg String.length h
  rw [goodPhoto_url_length, goodPhoto_url_length] at hl
  omega

/-- The abundant oracle satisfies the supply condition of C1: full pages of
valid records whose URLs are pairwise distinct within and across pages. -/
theorem goodOracle_supplies : SuppliesEnough goodOracle := by
  intro pp pg hpp hpg
  refine ⟨(List.range pp).map (goodPhoto pg), rfl, rfl, by simp, ?_, ?_, ?_⟩
  · intro p hp
    obtain ⟨k, hk, rfl⟩ := List.mem_map.mp hp
    exact goodPhoto_valid pg k hpg
  · rw [List.map_map]
    refine List.Nodup.map ?_ (List.nodup_range pp)
    intro a b hab
    have := goodPhoto_url_inj pg a pg b hab
    omega
  · intro pp' pg' hpp' hpg' hlt qs hqs q hq hqval p hp
    have hrfl : respPhotos (goodOracle pp' pg')
        = some ((List.range pp').map (goodPhoto pg')) := rfl
    rw [hrfl] at hqs
    have hqs' : qs = (List.range pp').map (goodPhoto pg') :=
      (Option.some_inj.mp hqs).symm
    subst hqs'
    obtain ⟨k', hk', rfl⟩ := List.mem_map.mp hq
    obtain ⟨k, hk, rfl⟩ := List.mem_map.mp hp
    intro heq
    have hidx := goodPhoto_url_inj pg k pg' k' heq
    have h500 : max_per_page = 500 := rfl
    have hk'lt : k' < pp' := List.mem_range.mp hk'
    omega

/-- The exhausted oracle trivially satisfies the progress condition: every
page is empty. -/
theorem emptyOracle_settles : EveryPageSettles emptyOracle := by
  intro pp pg _ _
  right; right; left; rfl

/-! Claim theorems. -/

/-- C1: for every valid configuration with target count N at least 1, if the
remote source supplies enough pages of valid, pairwise-distinct photo
records, the pagination loop returns a `done` result with exactly N URLs
(given fuel covering at most N iterations). -/
theorem C1_paginate_returns_exactly_target
    (oracle : Nat → Nat → SearchResponse) (target fuel : Nat)
    (hS : SuppliesEnough oracle) (_hN : 1 ≤ target) (hfuel : target ≤ fuel) :
    ∃ urls reqs, paginate oracle target fuel = .done urls reqs ∧
      urls.length = target := by
  have h := paginateLoop_supplies oracle target hS fuel [] 1 []
    (by norm_num)
    (by intro u hu; exact absurd hu (List.not_mem_nil u))
    (by simp)
    (by simpa using hfuel)
  exact h

/-- C1 witness: on the abundant oracle with target 2 and fuel 2, the loop
returns exactly 2 URLs. -/
theorem C1_witness :
    SuppliesEnough goodOracle ∧ 1 ≤ 2 ∧ 2 ≤ 2 ∧
      ∃ urls reqs, paginate goodOracle 2 2 = .done urls reqs ∧
        urls.length = 2 :=
  ⟨goodOracle_supplies, by norm_num, by norm_num,
    C1_paginate_returns_exactly_target goodOracle 2 2 goodOracle_supplies
      (by norm_num) (by norm_num)⟩

/-- C2 counterexample: the claim that the loop terminates for every sequence
of API responses is false.  On the oracle whose every response is a
successful, well-formed, non-empty page holding a single invalid record, the
accumulator never grows, no break or error fires, and no finite fuel
finishes the run. -/
theorem C2_counterexample : ¬ Terminates badOracle 1 := by
  rintro ⟨fuel, h⟩
  have h2 : (paginate badOracle 1 fuel).timedOut = true :=
    badOracle_stuck fuel 1 []
  rw [h] at h2
  exact Bool.noConfusion h2

/-- C2 (amended): the loop terminates — within target-count many iterations —
provided every page it can request either fails, is malformed, is empty, or
contributes at least one valid record with a fresh URL; without that proviso
(e.g. an endless supply of non-empty pages of invalid records) the loop runs
forever. -/
theorem C2_loop_terminates_when_pages_settle
    (oracle : Nat → Nat → SearchResponse) (target fuel : Nat)
    (hS : EveryPageSettles oracle) (hfuel : target ≤ fuel) :
    (paginate oracle target fuel).timedOut = false := by
  have h := paginateLoop_settles oracle target hS fuel [] 1 []
    (by norm_num)
    (by intro u hu; exact absurd hu (List.not_mem_nil u))
    (by simpa using hfuel)
  exact h

/-- C2 witness: the exhausted oracle settles every page, and the run with
target 1 and fuel 1 does not time out. -/
theorem C2_witness :
    EveryPageSettles emptyOracle ∧ 1 ≤ 1 ∧
      (paginate emptyOracle 1 1).timedOut = false :=
  ⟨emptyOracle_settles, le_refl 1,
    C2_loop_terminates_when_pages_settle emptyOracle 1 1 emptyOracle_settles
      (le_refl 1)⟩

/-- C3: every issued search request asks for
`per_page = min(target - len(urls), 500)` items, and in particular never
more than 500. -/
theorem C3_per_page_formula (oracle : Nat → Nat → SearchResponse)
    (target fuel : Nat) :
    ∀ r ∈ (paginate oracle target fuel).reqs,
      r.per_page = min (target - r.urlsLen) 500 ∧ r.per_page ≤ 500 := by
  intro r hr
  refine paginateLoop_reqs_pred oracle target
    (fun r => r.per_page = min (target - r.urlsLen) 500 ∧ r.per_page ≤ 500)
    ?_ fuel [] 1 [] ?_ r hr
  · intro n page hn
    exact ⟨rfl, min_le_right _ _⟩
  · intro r' hr'
    exact absurd hr' (List.not_mem_nil r')

/-- C3 witness: the single request of a run with target 1 asks for
`min(1 - 0, 500) = 1` item. -/
theorem C3_witness :
    (⟨1, 1, 0⟩ : SearchRequest) ∈ (paginate emptyOracle 1 1).reqs ∧
      ((⟨1, 1, 0⟩ : SearchRequest).per_page
          = min (1 - (⟨1, 1, 0⟩ : SearchRequest).urlsLen) 500 ∧
        (⟨1, 1, 0⟩ : SearchRequest).per_page ≤ 500) :=
  ⟨by decide, C3_per_page_formula emptyOracle 1 1 ⟨1, 1, 0⟩ (by decide)⟩

/-- C4: the code's validation flag agrees with the spec's four-field validity
rule; an invalid record is skipped without any effect; and every URL added by
a page comes from a valid record. -/
theorem C4_validation_gate (p : Photo) (target : Nat) (photos : List Photo)
    (urls : List String) :
    (invalidPhoto p = false ↔ specValidRecord p) ∧
    (invalidPhoto p = true →
      processPhotoList target (p :: photos) urls
        = processPhotoList target photos urls) ∧
    (∀ u ∈ processPhotoList target photos urls,
      u ∈ urls ∨ ∃ q, q ∈ photos ∧ invalidPhoto q = false ∧ u = photoUrl q) := by
  refine ⟨?_, ?_, processPhotoList_mem target photos urls⟩
  · obtain ⟨f, s, i, t⟩ := p
    cases f <;> cases s <;> cases i <;> cases t <;>
      simp [invalidPhoto, specValidRecord]
    tauto
  · intro h
    simp [processPhotoList, h]

/-- C4 witness: a record missing `secret` is invalid and its processing is a
no-op. -/
theorem C4_witness :
    invalidPhoto ⟨some 1, some "s", some "10", none⟩ = true ∧
      processPhotoList 3 [⟨some 1, some "s", some "10", none⟩] []
        = processPhotoList 3 [] [] :=
  ⟨by decide,
    (C4_validation_gate ⟨some 1, some "s", some "10", none⟩ 3 [] []).2.1
      (by decide)⟩

/-- C5: the collected URL list never holds duplicates — each URL appears at
most once, at the position of its first discovery: pages only ever append,
and an already-present URL is never appended again. -/
theorem C5_no_duplicate_urls (oracle : Nat → Nat → SearchResponse)
    (target fuel : Nat) (photos : List Photo) (urls : List String) :
    (paginate oracle target fuel).urls.Nodup ∧
    (∀ u, (paginate oracle target fuel).urls.count u ≤ 1) ∧
    (urls.Nodup → (processPhotoList target photos urls).Nodup ∧
      ∃ t, processPhotoList target photos urls = urls ++ t) := by
  have hnd : (paginate oracle target fuel).urls.Nodup :=
    paginateLoop_urls_nodup oracle target fuel [] 1 [] List.nodup_nil
  exact ⟨hnd, fun u => List.nodup_iff_count_le_one.mp hnd u,
    fun h => ⟨processPhotoList_nodup target photos urls h,
      processPhotoList_eq_append target photos urls⟩⟩

/-- C5 witness: a duplicate-free accumulator stays duplicate-free and is only
extended. -/
theorem C5_witness :
    (paginate emptyOracle 1 1).urls.Nodup ∧
      ([] : List String).Nodup ∧
      (processPhotoList 3 [] ([] : List String)).Nodup :=
  ⟨(C5_no_duplicate_urls emptyOracle 1 1 [] []).1, List.nodup_nil,
    ((C5_no_duplicate_urls emptyOracle 1 1 [] []).2.2 List.nodup_nil).1⟩

/-- C6: a success response with an empty photo list, received before the
target is reached, ends the loop at once: the URLs collected so far are
returned as a `done` outcome, with no error. -/
theorem C6_empty_page_stops_early (oracle : Nat → Nat → SearchResponse)
    (target fuel : Nat) (urls : List String) (page : Nat)
    (reqs : List SearchRequest) (hg : urls.length < target)
    (hs : (oracle (min (target - urls.length) max_per_page) page).status = 200)
    (hr : respPhotos (oracle (min (target - urls.length) max_per_page) page)
      = some []) :
    paginateLoop oracle target (fuel + 1) urls page reqs =
      .done urls (reqs ++
        [⟨min (target - urls.length) max_per_page, page, urls.length⟩]) :=
  paginateLoop_emptyPage oracle target fuel urls page reqs hg hs hr

/-- C6 witness: on the exhausted oracle the run with target 1 returns the
empty accumulator as a `done` outcome after one request. -/
theorem C6_witness :
    ([] : List String).length < 1 ∧
      paginateLoop emptyOracle 1 1 [] 1 [] = .done [] [⟨1, 1, 0⟩] := by
  refine ⟨by decide, ?_⟩
  have h := C6_empty_page_stops_early emptyOracle 1 0 [] 1 [] (by decide)
    rfl rfl
  exact h

/-- C7: starting from a fresh run, the loop ends in the `RuntimeError` of
line 97 exactly when some issued request got a non-success status, and in
the `ValueError` of line 106 exactly when some issued request got a success
status with a body lacking the `photos.photo` structure (either error
returns no URLs, as those outcomes carry none). -/
theorem C7_error_conditions (oracle : Nat → Nat → SearchResponse)
    (target fuel : Nat) :
    ((∃ rs, paginate oracle target fuel = .apiError rs) ↔
      ∃ r ∈ (paginate oracle target fuel).reqs,
        (oracle r.per_page r.page).status ≠ 200) ∧
    ((∃ rs, paginate oracle target fuel = .malformedError rs) ↔
      ∃ r ∈ (paginate oracle target fuel).reqs,
        (oracle r.per_page r.page).status = 200 ∧
          respPhotos (oracle r.per_page r.page) = none) := by
  have hclean : CleanTrace oracle [] := by
    intro r hr
    exact absurd hr (List.not_mem_nil r)
  exact ⟨paginateLoop_apiError_iff oracle target fuel [] 1 [] hclean,
    paginateLoop_malformed_iff oracle target fuel [] 1 [] hclean⟩

/-- C7 witness: a status-500 answer yields the API error, a success answer
without the `photos.photo` structure yields the malformed-response error. -/
theorem C7_witness :
    (∃ rs, paginate statusFailOracle 1 1 = .apiError rs) ∧
      ∃ rs, paginate noPhotosOracle 1 1 = .malformedError rs :=
  ⟨(C7_error_conditions statusFailOracle 1 1).1.mpr
      ⟨⟨1, 1, 0⟩, by decide, by decide⟩,
    (C7_error_conditions noPhotosOracle 1 1).2.mpr
      ⟨⟨1, 1, 0⟩, by decide, by decide, by decide⟩⟩

/-- C8: a single image download fails exactly when its HTTP status is not
success, and the bulk download returns a table exactly when every URL
downloads with success — one failure anywhere means no table at all. -/
theorem C8_download_failure_aborts (dl : String → HttpResponse)
    (reencode : List Nat → List Nat) (urls : List String) :
    ((∃ imgs, downloadAll dl reencode urls = .ok imgs) ↔
      ∀ u ∈ urls, (dl u).status = 200) ∧
    (∀ u, (∃ e, openImageFromUrl dl reencode u = .error e) ↔
      (dl u).status ≠ 200) ∧
    ((∃ u ∈ urls, (dl u).status ≠ 200) →
      ∀ imgs, downloadAll dl reencode urls ≠ .ok imgs) := by
  have hopen : ∀ u, (∃ e, openImageFromUrl dl reencode u = .error e) ↔
      (dl u).status ≠ 200 := by
    intro u
    constructor
    · rintro ⟨e, he⟩ h200
      simp [openImageFromUrl, h200] at he
    · intro h
      exact ⟨u, by simp [openImageFromUrl, h]⟩
  have hmain : ∀ us : List String,
      (∃ imgs, downloadAll dl reencode us = .ok imgs) ↔
        ∀ u ∈ us, (dl u).status = 200 := by
    intro us
    induction us with
    | nil =>
      constructor
      · intro _ u hu
        exact absurd hu (List.not_mem_nil u)
      · intro _
        exact ⟨[], rfl⟩
    | cons u rest ih =>
      by_cases hu : (dl u).status = 200
      · have hopen_u : openImageFromUrl dl reencode u
            = .ok (reencode (dl u).content) := by
          simp [openImageFromUrl, hu]
        rcases hrest : downloadAll dl reencode rest with e | imgs
        · have hcons : downloadAll dl reencode (u :: rest) = .error e := by
            simp [downloadAll, hopen_u, hrest]
          constructor
          · rintro ⟨imgs', h⟩
            rw [hcons] at h
            exact Except.noConfusion h
          · intro hall
            obtain ⟨imgs', h⟩ := ih.mpr
              (fun v hv => hall v (List.mem_cons_of_mem _ hv))
            rw [hrest] at h
            exact Except.noConfusion h
        · have hcons : downloadAll dl reencode (u :: rest)
              = .ok (reencode (dl u).content :: imgs) := by
            simp [downloadAll, hopen_u, hrest]
          constructor
          · intro _ v hv
            rcases List.mem_cons.mp hv with rfl | hv'
            · exact hu
            · exact (ih.mp ⟨imgs, hrest⟩) v hv'
          · intro _
            exact ⟨_, hcons⟩
      · have hopen_u : openImageFromUrl dl reencode u = .error u := by
          simp [openImageFromUrl, hu]
        have hcons : downloadAll dl reencode (u :: rest) = .error u := by
          simp [downloadAll, hopen_u]
        constructor
        · rintro ⟨imgs', h⟩
          rw [hcons] at h
          exact Except.noConfusion h
        · intro hall
          exact absurd (hall u (List.mem_cons_self _ _)) hu
  refine ⟨hmain urls, hopen, ?_⟩
  rintro ⟨u, hu, hbad⟩ imgs h
  exact absurd ((hmain urls).mp ⟨imgs, h⟩ u hu) hbad

/-- C8 witness: a 404 answer makes the single download fail and the run with
one URL produce no table. -/
theorem C8_witness :
    (∃ e, openImageFromUrl dlNotFound idBytes "u" = .error e) ∧
      ∀ imgs, downloadAll dlNotFound idBytes ["u"] ≠ .ok imgs :=
  ⟨((C8_download_failure_aborts dlNotFound idBytes ["u"]).2.1 "u").mpr
      (by decide),
    (C8_download_failure_aborts dlNotFound idBytes ["u"]).2.2
      ⟨"u", by decide, by decide⟩⟩

/-- C9: the collected URL list never exceeds the target — neither within a
page (entered below the target) nor over the whole run. -/
theorem C9_length_invariant (oracle : Nat → Nat → SearchResponse)
    (target fuel : Nat) (photos : List Photo) (urls : List String) :
    (urls.length < target →
      (processPhotoList target photos urls).length ≤ target) ∧
    (paginate oracle target fuel).urls.length ≤ target := by
  refine ⟨processPhotoList_length_le target photos urls, ?_⟩
  exact paginateLoop_urls_length_le oracle target fuel [] 1 [] (by simp)

/-- C9 witness: with target 3 the bound holds on a small run. -/
theorem C9_witness :
    ([] : List String).length < 3 ∧
      (processPhotoList 3 [] ([] : List String)).length ≤ 3 ∧
      (paginate emptyOracle 3 1).urls.length ≤ 3 :=
  ⟨by decide,
    (C9_length_invariant emptyOracle 3 1 [] []).1 (by decide),
    (C9_length_invariant emptyOracle 3 1 [] []).2⟩

/-- C10: every issued search request was issued while the accumulator was
strictly below the target: once the target is reached no request follows. -/
theorem C10_requests_only_below_target (oracle : Nat → Nat → SearchResponse)
    (target fuel : Nat) :
    ∀ r ∈ (paginate oracle target fuel).reqs, r.urlsLen < target := by
  intro r hr
  refine paginateLoop_reqs_pred oracle target (fun r => r.urlsLen < target)
    ?_ fuel [] 1 [] ?_ r hr
  · intro n page hn
    exact hn
  · intro r' hr'
    exact absurd hr' (List.not_mem_nil r')

/-- C10 witness: the single request of a small run was issued with an empty
accumulator, below the target. -/
theorem C10_witness :
    (⟨1, 1, 0⟩ : SearchRequest) ∈ (paginate emptyOracle 1 1).reqs ∧
      (⟨1, 1, 0⟩ : SearchRequest).urlsLen < 1 :=
  ⟨by decide,
    C10_requests_only_below_target emptyOracle 1 1 ⟨1, 1, 0⟩ (by decide)⟩
